import Mathlib

/-!
Verification of the dynamic spatial hash index (src/dynamic-spatial-hash.js).

The JavaScript class is shallowly embedded as follows:
* objects are identified by natural-number ids; their bounding boxes
  (center x, y and extents width, height, all JS numbers) are modelled as
  rational records passed at call time, since the source reads the fields
  at each call;
* a JS `Map` is an association list in insertion order with unique keys,
  a JS `Set` is a duplicate-free list in insertion order;
* the private field `#cellSize` stores the reciprocal of the configured
  cell size, exactly as the setter writes it;
* `hash` works on exact integers: `x * 16777619` is exact for every cell
  coordinate in range, `^` converts to 32-bit two-complement bit patterns
  (`z % 2^32` as a natural number) and xors them, `>>> 0` reinterprets
  the result as the unsigned 32-bit value;
* a thrown JS exception is an `Except.error` / a `some` error component.
-/

abbrev Key := Nat

structure Box where
  x : ℚ
  y : ℚ
  width : ℚ
  height : ℚ
deriving DecidableEq, Repr

/-- JS `Set.prototype.add`: append unless already present. -/
def sAdd (l : List Nat) (a : Nat) : List Nat :=
  if a ∈ l then l else l ++ [a]

/-- JS `Map.prototype.get` on an association list. -/
def alGet {V : Type} (k : Nat) : List (Nat × V) → Option V
  | [] => none
  | p :: t => if k = p.1 then some p.2 else alGet k t

/-- JS `Map.prototype.set`: overwrite in place if present, else append. -/
def alSet {V : Type} (k : Nat) (v : V) : List (Nat × V) → List (Nat × V)
  | [] => [(k, v)]
  | p :: t => if k = p.1 then (k, v) :: t else p :: alSet k v t

/-- JS `Map.prototype.delete`: drop the entry with the given key. -/
def alErase {V : Type} (k : Nat) : List (Nat × V) → List (Nat × V)
  | [] => []
  | p :: t => if k = p.1 then t else p :: alErase k t

/-- A JS value assigned to the `cellSize` property: a number or anything else. -/
inductive JsValue where
  | num (q : ℚ)
  | other
deriving DecidableEq

structure DynamicSpatialHash where
  /-- the private field `#cellSize`; the setter stores `1 / value` here -/
  cellSize : ℚ
  overflow : ℤ
  /-- the private field `#table`: cell key to bucket (a set of object ids) -/
  table : List (Key × List Nat)
  /-- the `__spatialHashes` property attached to each tracked object -/
  memb : List (Nat × List Key)
deriving DecidableEq

namespace DynamicSpatialHash

/-- `set cellSize(value)`: `TypeError` if not a number, `RangeError` if
not positive, otherwise store the reciprocal.  The pair returns the
raised error (if any) together with the state after the attempt. -/
def set_cellSize (s : DynamicSpatialHash) (v : JsValue) :
    Option String × DynamicSpatialHash :=
  match v with
  | .other => (some "TypeError", s)
  | .num q => if q ≤ 0 then (some "RangeError", s)
      else (none, { s with cellSize := 1 / q })

/-- `get cellSize()`: returns the private field as stored. -/
def get_cellSize (s : DynamicSpatialHash) : ℚ := s.cellSize

/-- The state produced by `new DynamicSpatialHash()` (default cell size 32):
field initializer `#cellSize = 1 / 32`, then the constructor runs the
setter with 32 and sets `overflow = 0`. -/
def init : DynamicSpatialHash :=
  { cellSize := 1 / 32, overflow := 0, table := [], memb := [] }

/-- `constructor(cellSize = 32)`: runs the `cellSize` setter, which may throw. -/
def construct (v : JsValue) : Except String DynamicSpatialHash :=
  match set_cellSize { cellSize := 1 / 32, overflow := 0, table := [], memb := [] } v with
  | (some e, _) => .error e
  | (none, s) => .ok s

/-- `hash(x, y) { return ((x * 16777619) ^ (y * 16777619)) >>> 0; }` -/
def hash (x y : ℤ) : Key :=
  ((x * 16777619) % 2 ^ 32).toNat ^^^ ((y * 16777619) % 2 ^ 32).toNat

/-- The integers from `lo` to `hi` inclusive (a `for` loop range). -/
def intRange (lo hi : ℤ) : List ℤ :=
  (List.range (hi + 1 - lo).toNat).map fun (i : ℕ) => lo + (i : ℤ)

/-- `minX` in `getHashFromObject`. -/
def minXOf (s : DynamicSpatialHash) (b : Box) : ℤ :=
  ⌊(b.x - b.width * (1 / 2)) * s.cellSize⌋ - s.overflow

/-- `minY` in `getHashFromObject`. -/
def minYOf (s : DynamicSpatialHash) (b : Box) : ℤ :=
  ⌊(b.y - b.height * (1 / 2)) * s.cellSize⌋ - s.overflow

/-- `maxX` in `getHashFromObject`. -/
def maxXOf (s : DynamicSpatialHash) (b : Box) : ℤ :=
  ⌊(b.x + b.width * (1 / 2)) * s.cellSize⌋ + s.overflow

/-- `maxY` in `getHashFromObject`. -/
def maxYOf (s : DynamicSpatialHash) (b : Box) : ℤ :=
  ⌊(b.y + b.height * (1 / 2)) * s.cellSize⌋ + s.overflow

/-- `getHashFromObject(object)`: the two nested `for` loops filling the
`hashes` set, x outer, y inner. -/
def getHashFromObject (s : DynamicSpatialHash) (b : Box) : List Key :=
  (intRange (minXOf s b) (maxXOf s b)).foldl
    (fun acc cx =>
      (intRange (minYOf s b) (maxYOf s b)).foldl
        (fun acc2 cy => sAdd acc2 (hash cx cy)) acc) []

/-- The `hashes.forEach` loop body of `add`: create the bucket if missing,
then insert the object. -/
def addTable (o : Nat) (t : List (Key × List Nat)) (hs : List Key) :
    List (Key × List Nat) :=
  hs.foldl (fun t h =>
    match alGet h t with
    | none => alSet h [o] t
    | some bucket => alSet h (sAdd bucket o) t) t

/-- `add(object)`: compute the covering keys, store them as the object's
`__spatialHashes`, and insert the object into each bucket. -/
def add (s : DynamicSpatialHash) (o : Nat) (b : Box) : DynamicSpatialHash :=
  let hashes := getHashFromObject s b
  { s with
    memb := alSet o hashes s.memb
    table := addTable o s.table hashes }

/-- The `__spatialHashes.forEach` loop body of `delete`: skip missing
buckets, remove the object, drop the bucket if it became empty. -/
def delTable (o : Nat) (t : List (Key × List Nat)) (hs : List Key) :
    List (Key × List Nat) :=
  hs.foldl (fun t h =>
    match alGet h t with
    | none => t
    | some bucket =>
      if (bucket.erase o).length = 0 then alErase h t
      else alSet h (bucket.erase o) t) t

/-- `delete(object)`: a bare `return` (value `undefined`, flag `false`)
when the object has no `__spatialHashes`, otherwise remove it from its
buckets, drop its `__spatialHashes`, and `return this` (flag `true`). -/
def delete (s : DynamicSpatialHash) (o : Nat) : DynamicSpatialHash × Bool :=
  match alGet o s.memb with
  | none => (s, false)
  | some hashes =>
    ({ s with
        table := delTable o s.table hashes
        memb := alErase o s.memb }, true)

/-- `update(object) { this.delete(object).add(object); }` — when `delete`
returns `undefined`, the chained `.add` throws a `TypeError`. -/
def update (s : DynamicSpatialHash) (o : Nat) (b : Box) :
    Except String DynamicSpatialHash :=
  match delete s o with
  | (s1, true) => .ok (add s1 o b)
  | (_, false) => .error "TypeError"

/-- `query(object)`: reading `__spatialHashes` of an untracked object gives
`undefined` and the `forEach` on it throws; otherwise gather every other
object of every existing bucket named by the membership set. -/
def query (s : DynamicSpatialHash) (o : Nat) : Except String (List Nat) :=
  match alGet o s.memb with
  | none => .error "TypeError"
  | some hashes => .ok (hashes.foldl (fun acc h =>
      match alGet h s.table with
      | none => acc
      | some bucket =>
        bucket.foldl (fun acc2 ob => if ob = o then acc2 else sAdd acc2 ob) acc) [])

/-- `get(hash)`: the raw bucket. -/
def get (s : DynamicSpatialHash) (h : Key) : Option (List Nat) :=
  alGet h s.table

/-- `clear(hash)`: drop one bucket unconditionally. -/
def clear (s : DynamicSpatialHash) (h : Key) : DynamicSpatialHash :=
  { s with table := alErase h s.table }

/-- `clearAll()`: drop the whole table. -/
def clearAll (s : DynamicSpatialHash) : DynamicSpatialHash :=
  { s with table := [] }

/-- Whether the bucket at key `h` exists and contains object `o`. -/
def bucketHasB (s : DynamicSpatialHash) (h : Key) (o : Nat) : Bool :=
  match alGet h s.table with
  | none => false
  | some b => decide (o ∈ b)

/-- Invariant I1: every key in a tracked object's membership set names a
bucket containing that object. -/
def I1B (s : DynamicSpatialHash) : Bool :=
  s.memb.all fun p => p.2.all fun h => bucketHasB s h p.1

/-- Invariant I2: every object in a bucket has that bucket's key in its
membership set. -/
def I2B (s : DynamicSpatialHash) : Bool :=
  s.table.all fun q => q.2.all fun o =>
    match alGet o s.memb with
    | none => false
    | some hs => decide (q.1 ∈ hs)

/-- Invariant I3: no bucket present in the table is empty. -/
def I3B (s : DynamicSpatialHash) : Bool :=
  s.table.all fun q => !q.2.isEmpty

/-- The number of grid cells of the covering rectangle scanned by
`getHashFromObject` (the loop trip counts multiplied). -/
def cellCount (s : DynamicSpatialHash) (b : Box) : ℤ :=
  (maxXOf s b - minXOf s b + 1) * (maxYOf s b - minYOf s b + 1)

end DynamicSpatialHash

open DynamicSpatialHash

instance {ε α : Type} [DecidableEq ε] [DecidableEq α] : DecidableEq (Except ε α) := fun a b =>
  match a, b with
  | .error e, .error f =>
    if h : e = f then .isTrue (by rw [h]) else .isFalse (by intro hc; cases hc; exact h rfl)
  | .ok x, .ok y =>
    if h : x = y then .isTrue (by rw [h]) else .isFalse (by intro hc; cases hc; exact h rfl)
  | .error _, .ok _ => .isFalse (by intro hc; cases hc)
  | .ok _, .error _ => .isFalse (by intro hc; cases hc)

/-- Object A of the specification scenario (cellSize 32, overflow 0). -/
def boxA3 : Box := ⟨10, 20, 32, 32⟩

/-- Object B of the specification scenario. -/
def boxB3 : Box := ⟨200, 200, 10, 10⟩

/-- Object A of the scenario after the move. -/
def boxA3m : Box := ⟨200, 205, 32, 32⟩

/-- The scenario state: A (id 0) added, then B (id 1). -/
def state3 : DynamicSpatialHash := (init.add 0 boxA3).add 1 boxB3

/-- A degenerate box at the origin, covering only cell (0, 0). -/
def boxP : Box := ⟨0, 0, 0, 0⟩

/-- A degenerate box at x = 100, covering only cell (3, 0). -/
def boxQ : Box := ⟨100, 0, 0, 0⟩

/-- A consistently tracked state: object 0 added at `boxP`. -/
def state5 : DynamicSpatialHash := init.add 0 boxP

/-- The state after a second `add` of object 0, whose box moved to `boxQ`. -/
def state2 : DynamicSpatialHash := state5.add 0 boxQ

/-- A fresh index whose `cellSize` property was set to `q`. -/
def withCell (q : ℚ) : DynamicSpatialHash := (set_cellSize init (JsValue.num q)).2

/-- An interval straddling a cell border of the 5/4 grid but not of the unit grid. -/
def boxC8a : Box := ⟨5 / 4, 0, 1 / 2, 0⟩

/-- A box whose unit-grid covering cells (19..20, 59..60) yield only 2 distinct
keys, because hash(19, 59) = hash(20, 60) and hash(19, 60) = hash(20, 59),
while its cell-size-2 covering cells (9..10, 29..30) yield 4 distinct keys. -/
def boxC8b : Box := ⟨20, 60, 1 / 2, 1 / 2⟩

attribute [local semireducible] Rat.mul Rat.inv Rat.add Rat.sub

/-- C4: the cell-identifier encoding is symmetric — hash(x, y) = hash(y, x)
for all integers, hash(c, c) = 0 for every integer c, and in particular the
distinct coordinate pairs (0, 0) and (6, 6) map to the same bucket key, so
the encoding is not injective even for small coordinates. -/
theorem hash_symmetric_diagonal_zero :
    (∀ x y : ℤ, hash x y = hash y x) ∧
    (∀ c : ℤ, hash c c = 0) ∧
    hash 0 0 = hash 6 6 ∧
    ((0 : ℤ), (0 : ℤ)) ≠ ((6 : ℤ), (6 : ℤ)) :=
  ⟨fun x y => Nat.xor_comm _ _, fun c => Nat.xor_self _, by decide, by decide⟩

/-- C2 (code bug): after the call sequence add(0 at boxP); add(0 at boxQ) —
a double add with the bounding box moved in between — invariant I2 fails:
the bucket at hash(0, 0) still holds object 0, but hash(0, 0) is no longer
in its membership set.  I1 and I3 still hold at that state. -/
theorem double_add_breaks_invariant_I2 :
    I2B state2 = false ∧ I1B state2 = true ∧ I3B state2 = true ∧
    bucketHasB state2 (hash 0 0) 0 = true ∧
    alGet 0 state2.memb = some [hash 3 0] := by
  refine ⟨by decide, by decide, by decide, by decide, by decide⟩

/-- C5 (code bug): for the tracked, consistent object 0 of `state5` whose box
then moved to `boxQ`, a second `add` does not behave like `update`: `add`
leaves object 0 in the stale bucket at hash(0, 0) and breaks invariant I2,
while `update` removes that bucket and preserves I2, so the two resulting
index states differ. -/
theorem add_on_tracked_differs_from_update :
    ∃ sU, update state5 0 boxQ = Except.ok sU ∧
      state5.add 0 boxQ ≠ sU ∧
      bucketHasB (state5.add 0 boxQ) (hash 0 0) 0 = true ∧
      bucketHasB sU (hash 0 0) 0 = false ∧
      I2B (state5.add 0 boxQ) = false ∧ I2B sU = true :=
  ⟨(update state5 0 boxQ).toOption.getD init,
    by decide, by decide, by decide, by decide, by decide, by decide⟩

/-- C6 (code bug): on an object that was never tracked, `delete` is a safe
no-op (it does not raise, leaves the state unchanged, and returns
`undefined`, flag `false`), but `update` is not equivalent to `add`: the
chained `.add` call on `undefined` raises a TypeError. -/
theorem delete_noop_but_update_raises_on_untracked :
    delete init 0 = (init, false) ∧
    update init 0 boxP = Except.error "TypeError" ∧
    init.add 0 boxP ≠ init := by
  refine ⟨by decide, by decide, by decide⟩

/-- C7: assigning a non-number to `cellSize` raises a TypeError and a
non-positive number raises a RangeError, in both cases synchronously and
leaving the state — in particular the previously stored cell size —
unchanged, while assigning any positive number never raises. -/
theorem set_cellSize_validates_and_rejects_atomically
    (s : DynamicSpatialHash) (q : ℚ) :
    (q ≤ 0 → set_cellSize s (JsValue.num q) = (some "RangeError", s)) ∧
    set_cellSize s JsValue.other = (some "TypeError", s) ∧
    (0 < q → (set_cellSize s (JsValue.num q)).1 = none) := by
  refine ⟨fun h => by simp [set_cellSize, h], by simp [set_cellSize],
    fun h => by simp [set_cellSize, not_le.mpr h]⟩

/-- C7 witness: the scenario `cellSize = -5` on a fresh index raises a
RangeError and leaves the stored configuration intact, while 32 is accepted. -/
theorem set_cellSize_validates_witness :
    ((-5 : ℚ) ≤ 0 ∧ set_cellSize init (JsValue.num (-5)) = (some "RangeError", init)) ∧
    set_cellSize init JsValue.other = (some "TypeError", init) ∧
    ((0 : ℚ) < 32 ∧ (set_cellSize init (JsValue.num 32)).1 = none) :=
  ⟨⟨by norm_num, (set_cellSize_validates_and_rejects_atomically init (-5)).1 (by norm_num)⟩,
    (set_cellSize_validates_and_rejects_atomically init (-5)).2.1,
    ⟨by norm_num, (set_cellSize_validates_and_rejects_atomically init 32).2.2 (by norm_num)⟩⟩

/-- C10 (counterexample): at v = 1 the setter/getter round trip does return
exactly the value that was set, so the claim's universal "not v" part fails. -/
theorem cellSize_roundtrip_returns_set_value_at_one :
    get_cellSize (set_cellSize init (JsValue.num 1)).2 = 1 := by decide

/-- C10 (amended): after assigning any valid v > 0 the getter returns the
stored reciprocal 1/v, which differs from v whenever v is not 1; a freshly
constructed index with the default cell size 32 reports cellSize = 1/32. -/
theorem cellSize_getter_returns_reciprocal (s : DynamicSpatialHash) (q : ℚ)
    (hq : 0 < q) :
    get_cellSize (set_cellSize s (JsValue.num q)).2 = 1 / q ∧
    (q ≠ 1 → get_cellSize (set_cellSize s (JsValue.num q)).2 ≠ q) ∧
    construct (JsValue.num 32) = Except.ok init ∧
    get_cellSize init = 1 / 32 := by
  have hget : get_cellSize (set_cellSize s (JsValue.num q)).2 = 1 / q := by
    simp [set_cellSize, not_le.mpr hq, get_cellSize]
  refine ⟨hget, fun h1 hc => h1 ?_, by decide, by decide⟩
  have hq1 : 1 / q = q := by rw [hget] at hc; exact hc
  have h2 : q * q = 1 := by
    have := congrArg (fun z => z * q) hq1
    simpa [one_div, inv_mul_cancel₀ (ne_of_gt hq)] using this.symm
  rcases mul_self_eq_one_iff.mp h2 with h | h
  · exact h
  · exact absurd (h ▸ hq) (by norm_num)

/-- C10 witness: instantiated at v = 2 on a fresh index. -/
theorem cellSize_getter_returns_reciprocal_witness :
    (0 : ℚ) < 2 ∧ get_cellSize (set_cellSize init (JsValue.num 2)).2 = 1 / 2 ∧
    ((2 : ℚ) ≠ 1 → get_cellSize (set_cellSize init (JsValue.num 2)).2 ≠ 2) ∧
    construct (JsValue.num 32) = Except.ok init ∧
    get_cellSize init = 1 / 32 :=
  ⟨by norm_num, (cellSize_getter_returns_reciprocal init 2 (by norm_num)).1,
    (cellSize_getter_returns_reciprocal init 2 (by norm_num)).2.1,
    (cellSize_getter_returns_reciprocal init 2 (by norm_num)).2.2.1,
    (cellSize_getter_returns_reciprocal init 2 (by norm_num)).2.2.2⟩

/-- C3 (counterexample): in the specification scenario the two queries are
already non-empty before A moves — adding A then B, query(A) returns B and
query(B) returns A, because the covering key sets are not disjoint: A covers
cell (0, 0) and B covers cell (6, 6), and hash(0, 0) = hash(6, 6) = 0.
Moreover A's covering rows are cy in 0..1, not only 0. -/
theorem scenario_query_nonempty_before_move :
    query state3 0 = Except.ok [1] ∧
    query state3 0 ≠ Except.ok [] ∧
    query state3 1 = Except.ok [0] ∧
    maxYOf init boxA3 = 1 := by
  refine ⟨by decide, by decide, by decide, by decide⟩

/-- C3 (amended): with cellSize 32 and overflow 0, A covers cell columns
cx in -1..0 and rows cy in 0..1, and B covers exactly the single key
hash(6, 6), which equals A's key hash(0, 0) by collision; consequently
query(A) = [the id of B] and query(B) = [the id of A] both before and after A moves to
(200, 205) via update. -/
theorem scenario_corrected :
    (minXOf init boxA3 = -1 ∧ maxXOf init boxA3 = 0 ∧
      minYOf init boxA3 = 0 ∧ maxYOf init boxA3 = 1) ∧
    getHashFromObject init boxB3 = [hash 6 6] ∧
    hash 6 6 = hash 0 0 ∧
    query state3 0 = Except.ok [1] ∧ query state3 1 = Except.ok [0] ∧
    (∃ s3, update state3 0 boxA3m = Except.ok s3 ∧
      query s3 0 = Except.ok [1] ∧ query s3 1 = Except.ok [0]) := by
  refine ⟨⟨by decide, by decide, by decide, by decide⟩, by decide, by decide,
    by decide, by decide,
    ⟨(update state3 0 boxA3m).toOption.getD init, by decide, by decide, by decide⟩⟩

theorem mem_sAdd {l : List Nat} {a x : Nat} : x ∈ sAdd l a ↔ x ∈ l ∨ x = a := by
  by_cases h : a ∈ l
  · simp only [sAdd, if_pos h]
    exact ⟨Or.inl, fun hx => hx.elim id (fun e => e ▸ h)⟩
  · simp [sAdd, if_neg h]

theorem nodup_sAdd {l : List Nat} {a : Nat} (h : l.Nodup) : (sAdd l a).Nodup := by
  by_cases ha : a ∈ l
  · simpa [sAdd, if_pos ha] using h
  · simp [sAdd, if_neg ha, List.nodup_append, h, ha]

theorem alGet_mem {V : Type} {k : Nat} {v : V} : ∀ {t : List (Nat × V)},
    alGet k t = some v → (k, v) ∈ t := by
  intro t
  induction t with
  | nil => intro h; simp [alGet] at h
  | cons p t ih =>
    intro h
    rw [alGet] at h
    split at h
    · rename_i hk
      obtain rfl := Option.some.inj h
      subst hk
      exact List.mem_cons_self _ _
    · exact List.mem_cons_of_mem _ (ih h)

theorem mem_keys_of_alGet {V : Type} {k : Nat} {v : V} {t : List (Nat × V)}
    (h : alGet k t = some v) : k ∈ t.map Prod.fst :=
  List.mem_map.mpr ⟨(k, v), alGet_mem h, rfl⟩

theorem alGet_eq_none {V : Type} {k : Nat} : ∀ {t : List (Nat × V)},
    k ∉ t.map Prod.fst → alGet k t = none := by
  intro t
  induction t with
  | nil => intro _; rfl
  | cons p t ih =>
    intro h
    rw [List.map_cons, List.mem_cons] at h
    push_neg at h
    rw [alGet, if_neg h.1]
    exact ih h.2

theorem alGet_alSet_self {V : Type} (k : Nat) (v : V) : ∀ (t : List (Nat × V)),
    alGet k (alSet k v t) = some v := by
  intro t
  induction t with
  | nil => simp [alSet, alGet]
  | cons p t ih =>
    rw [alSet]
    split
    · rw [alGet, if_pos rfl]
    · rename_i hk
      rw [alGet, if_neg hk]
      exact ih

theorem alGet_alSet_ne {V : Type} {k j : Nat} (v : V) (hne : k ≠ j) :
    ∀ (t : List (Nat × V)), alGet k (alSet j v t) = alGet k t := by
  intro t
  induction t with
  | nil => simp [alSet, alGet, hne]
  | cons p t ih =>
    rw [alSet]
    split
    · rename_i hj
      rw [alGet, if_neg hne, alGet, if_neg (hj ▸ hne)]
    · rw [alGet, alGet]
      split
      · rfl
      · exact ih

theorem alGet_alErase_ne {V : Type} {k j : Nat} (hne : k ≠ j) :
    ∀ (t : List (Nat × V)), alGet k (alErase j t) = alGet k t := by
  intro t
  induction t with
  | nil => rfl
  | cons p t ih =>
    rw [alErase]
    split
    · rename_i hj
      rw [alGet, if_neg (hj ▸ hne)]
    · rw [alGet, alGet]
      split
      · rfl
      · exact ih

theorem alErase_sublist {V : Type} (k : Nat) : ∀ (t : List (Nat × V)),
    (alErase k t).Sublist t := by
  intro t
  induction t with
  | nil => exact List.Sublist.refl _
  | cons p t ih =>
    rw [alErase]
    split
    · exact List.sublist_cons_self _ _
    · exact List.Sublist.cons₂ _ ih

theorem alGet_alErase_self {V : Type} {k : Nat} : ∀ {t : List (Nat × V)},
    (t.map Prod.fst).Nodup → alGet k (alErase k t) = none := by
  intro t
  induction t with
  | nil => intro _; rfl
  | cons p t ih =>
    intro hnd
    rw [List.map_cons, List.nodup_cons] at hnd
    rw [alErase]
    split
    · rename_i hk
      exact alGet_eq_none (hk ▸ hnd.1)
    · rename_i hk
      rw [alGet, if_neg hk]
      exact ih hnd.2

theorem keys_alSet_mem {V : Type} {x k : Nat} (v : V) : ∀ {t : List (Nat × V)},
    x ∈ (alSet k v t).map Prod.fst → x = k ∨ x ∈ t.map Prod.fst := by
  intro t
  induction t with
  | nil => intro h; simpa [alSet] using h
  | cons p t ih =>
    intro h
    rw [alSet] at h
    split at h
    · rename_i hk
      rw [List.map_cons, List.mem_cons] at h
      rcases h with h | h
      · exact Or.inl h
      · exact Or.inr (List.mem_cons_of_mem _ h)
    · rw [List.map_cons, List.mem_cons] at h
      rcases h with h | h
      · exact Or.inr (h ▸ List.mem_cons_self _ _)
      · rcases ih h with h | h
        · exact Or.inl h
        · exact Or.inr (List.mem_cons_of_mem _ h)

theorem nodup_keys_alSet {V : Type} {k : Nat} (v : V) : ∀ {t : List (Nat × V)},
    (t.map Prod.fst).Nodup → ((alSet k v t).map Prod.fst).Nodup := by
  intro t
  induction t with
  | nil => intro _; simp [alSet]
  | cons p t ih =>
    intro hnd
    rw [List.map_cons, List.nodup_cons] at hnd
    rw [alSet]
    split
    · rename_i hk
      rw [List.map_cons, List.nodup_cons]
      exact ⟨hk ▸ hnd.1, hnd.2⟩
    · rename_i hk
      rw [List.map_cons, List.nodup_cons]
      refine ⟨fun hmem => ?_, ih hnd.2⟩
      rcases keys_alSet_mem v hmem with h | h
      · exact hk h.symm
      · exact hnd.1 h

theorem mem_query_inner {o x : Nat} : ∀ (bucket acc : List Nat),
    (x ∈ bucket.foldl (fun acc2 ob => if ob = o then acc2 else sAdd acc2 ob) acc ↔
      x ∈ acc ∨ (x ∈ bucket ∧ x ≠ o)) := by
  intro bucket
  induction bucket with
  | nil => intro acc; simp
  | cons b bs ih =>
    intro acc
    rw [List.foldl_cons, ih]
    by_cases hb : b = o
    · subst hb
      simp only [if_pos rfl, List.mem_cons]
      constructor
      · rintro (h | h)
        · exact Or.inl h
        · exact Or.inr ⟨Or.inr h.1, h.2⟩
      · rintro (h | ⟨hb | hbs, hne⟩)
        · exact Or.inl h
        · exact absurd hb hne
        · exact Or.inr ⟨hbs, hne⟩
    · rw [if_neg hb, mem_sAdd]
      constructor
      · rintro ((h | rfl) | h)
        · exact Or.inl h
        · exact Or.inr ⟨List.mem_cons_self _ _, hb⟩
        · exact Or.inr ⟨List.mem_cons_of_mem _ h.1, h.2⟩
      · rintro (h | ⟨hmem, hne⟩)
        · exact Or.inl (Or.inl h)
        · rcases List.mem_cons.mp hmem with rfl | h
          · exact Or.inl (Or.inr rfl)
          · exact Or.inr ⟨h, hne⟩

theorem bucketHasB_iff {s : DynamicSpatialHash} {h : Key} {x : Nat} :
    bucketHasB s h x = true ↔ ∃ bu, alGet h s.table = some bu ∧ x ∈ bu := by
  rw [bucketHasB]
  rcases hg : alGet h s.table with _ | bu
  · simp
  · simp

theorem mem_query_fold {s : DynamicSpatialHash} {o x : Nat} : ∀ (hs : List Key) (acc : List Nat),
    (x ∈ hs.foldl (fun acc h =>
        match alGet h s.table with
        | none => acc
        | some bucket =>
          bucket.foldl (fun acc2 ob => if ob = o then acc2 else sAdd acc2 ob) acc) acc ↔
      x ∈ acc ∨ ∃ h ∈ hs, bucketHasB s h x = true ∧ x ≠ o) := by
  intro hs
  induction hs with
  | nil => intro acc; simp
  | cons h hs ih =>
    intro acc
    rw [List.foldl_cons]
    rcases hg : alGet h s.table with _ | bu
    · rw [ih]
      simp only [List.mem_cons]
      constructor
      · rintro (ha | ⟨h2, hm, hb, hne⟩)
        · exact Or.inl ha
        · exact Or.inr ⟨h2, Or.inr hm, hb, hne⟩
      · rintro (ha | ⟨h2, hm | hm, hb, hne⟩)
        · exact Or.inl ha
        · subst hm
          rw [bucketHasB, hg] at hb
          cases hb
        · exact Or.inr ⟨h2, hm, hb, hne⟩
    · rw [ih, mem_query_inner]
      have hbu : bucketHasB s h x = true ↔ x ∈ bu := by
        rw [bucketHasB, hg]; simp
      simp only [List.mem_cons]
      constructor
      · rintro ((ha | ⟨hm, hne⟩) | ⟨h2, hm, hb, hne⟩)
        · exact Or.inl ha
        · exact Or.inr ⟨h, Or.inl rfl, hbu.mpr hm, hne⟩
        · exact Or.inr ⟨h2, Or.inr hm, hb, hne⟩
      · rintro (ha | ⟨h2, hm | hm, hb, hne⟩)
        · exact Or.inl (Or.inl ha)
        · subst hm
          exact Or.inl (Or.inr ⟨hbu.mp hb, hne⟩)
        · exact Or.inr ⟨h2, hm, hb, hne⟩

/-- C1: for a state satisfying invariants I1 and I2 and a tracked object A,
query(A) succeeds and returns exactly the tracked objects, other than A
itself, whose recorded covering key sets intersect the covering key set of
A. -/
theorem query_returns_exactly_key_intersecting (s : DynamicSpatialHash)
    (A : Nat) (HA : List Key) (hI1 : I1B s = true) (hI2 : I2B s = true)
    (hA : alGet A s.memb = some HA) :
    ∃ L, query s A = Except.ok L ∧
      ∀ B, B ∈ L ↔ B ≠ A ∧ ∃ HB, alGet B s.memb = some HB ∧ ∃ h, h ∈ HA ∧ h ∈ HB := by
  rw [query, hA]
  refine ⟨_, rfl, fun B => ?_⟩
  rw [mem_query_fold]
  simp only [List.not_mem_nil, false_or]
  rw [I1B, List.all_eq_true] at hI1
  rw [I2B, List.all_eq_true] at hI2
  constructor
  · rintro ⟨h, hm, hb, hne⟩
    obtain ⟨bu, hbu, hxbu⟩ := bucketHasB_iff.mp hb
    have h2 := hI2 (h, bu) (alGet_mem hbu)
    rw [List.all_eq_true] at h2
    have h3 := h2 B hxbu
    rcases hBm : alGet B s.memb with _ | HB
    · rw [hBm] at h3; cases h3
    · rw [hBm] at h3
      exact ⟨hne, HB, rfl, h, hm, of_decide_eq_true h3⟩
  · rintro ⟨hne, HB, hBm, h, hmA, hmB⟩
    have h1 := hI1 (B, HB) (alGet_mem hBm)
    rw [List.all_eq_true] at h1
    exact ⟨h, hmA, h1 h hmB, hne⟩

/-- C1 witness: the invariants hold in the concrete scenario state, object 0
is tracked there, and instantiating the theorem gives the concrete query
guarantee. -/
theorem query_returns_exactly_key_intersecting_witness :
    I1B state3 = true ∧ I2B state3 = true ∧
    alGet 0 state3.memb = some [hash (-1) 0, hash (-1) 1, hash 0 0, hash 0 1] ∧
    (∃ L, query state3 0 = Except.ok L ∧
      ∀ B, B ∈ L ↔ B ≠ 0 ∧ ∃ HB, alGet B state3.memb = some HB ∧
        ∃ h, h ∈ [hash (-1) 0, hash (-1) 1, hash 0 0, hash 0 1] ∧ h ∈ HB) :=
  ⟨by decide, by decide, by decide,
    query_returns_exactly_key_intersecting state3 0 _ (by decide) (by decide) (by decide)⟩

theorem nodup_keys_alErase {V : Type} {k : Nat} {t : List (Nat × V)}
    (h : (t.map Prod.fst).Nodup) : ((alErase k t).map Prod.fst).Nodup :=
  (((alErase_sublist k t).map Prod.fst).nodup h)

theorem addTable_cons (o : Nat) (t : List (Key × List Nat)) (h : Key) (hs : List Key) :
    addTable o t (h :: hs) = addTable o
      (match alGet h t with
        | none => alSet h [o] t
        | some bucket => alSet h (sAdd bucket o) t) hs := by
  rw [addTable, List.foldl_cons, addTable]

theorem delTable_cons (o : Nat) (t : List (Key × List Nat)) (h : Key) (hs : List Key) :
    delTable o t (h :: hs) = delTable o
      (match alGet h t with
        | none => t
        | some bucket =>
          if (bucket.erase o).length = 0 then alErase h t
          else alSet h (bucket.erase o) t) hs := by
  rw [delTable, List.foldl_cons, delTable]

theorem addTable_get_not_mem {o : Nat} : ∀ {hs : List Key} {t : List (Key × List Nat)}
    {k : Key}, k ∉ hs → alGet k (addTable o t hs) = alGet k t := by
  intro hs
  induction hs with
  | nil => intro t k _; rfl
  | cons h hs ih =>
    intro t k hk
    rw [List.mem_cons] at hk
    push_neg at hk
    rw [addTable_cons, ih hk.2]
    rcases hget : alGet h t with _ | bu
    · exact alGet_alSet_ne _ hk.1 t
    · exact alGet_alSet_ne _ hk.1 t

theorem delTable_get_not_mem {o : Nat} : ∀ {hs : List Key} {t : List (Key × List Nat)}
    {k : Key}, k ∉ hs → alGet k (delTable o t hs) = alGet k t := by
  intro hs
  induction hs with
  | nil => intro t k _; rfl
  | cons h hs ih =>
    intro t k hk
    rw [List.mem_cons] at hk
    push_neg at hk
    rw [delTable_cons, ih hk.2]
    rcases hget : alGet h t with _ | bu
    · rfl
    · dsimp only
      split
      · exact alGet_alErase_ne hk.1 t
      · exact alGet_alSet_ne _ hk.1 t

theorem addTable_get {o : Nat} : ∀ {hs : List Key}, hs.Nodup →
    ∀ {t : List (Key × List Nat)} {k : Key}, k ∈ hs →
      alGet k (addTable o t hs) = some (sAdd ((alGet k t).getD []) o) := by
  intro hs
  induction hs with
  | nil => intro _ t k hk; cases hk
  | cons h hs ih =>
    intro hnd t k hk
    rw [List.nodup_cons] at hnd
    rw [addTable_cons]
    rcases List.mem_cons.mp hk with rfl | hk2
    · rw [addTable_get_not_mem hnd.1]
      rcases hget : alGet k t with _ | bu
      · dsimp only
        have hsa : sAdd ([] : List Nat) o = [o] := by simp [sAdd]
        rw [Option.getD_none, hsa]
        exact alGet_alSet_self k [o] t
      · dsimp only
        exact alGet_alSet_self k (sAdd bu o) t
    · have hkh : k ≠ h := fun e => hnd.1 (e ▸ hk2)
      rw [ih hnd.2 hk2]
      rcases hget : alGet h t with _ | bu
      · rw [alGet_alSet_ne _ hkh t]
      · rw [alGet_alSet_ne _ hkh t]

theorem nodup_keys_delTable_step {o : Nat} {t : List (Key × List Nat)} {h : Key}
    (htk : (t.map Prod.fst).Nodup) :
    (((match alGet h t with
        | none => t
        | some bucket =>
          if (bucket.erase o).length = 0 then alErase h t
          else alSet h (bucket.erase o) t) : List (Key × List Nat)).map Prod.fst).Nodup := by
  rcases alGet h t with _ | bu
  · exact htk
  · dsimp only
    split
    · exact nodup_keys_alErase htk
    · exact nodup_keys_alSet _ htk

theorem delTable_get {o : Nat} : ∀ {hs : List Key}, hs.Nodup →
    ∀ {t : List (Key × List Nat)}, (t.map Prod.fst).Nodup → ∀ {k : Key}, k ∈ hs →
      alGet k (delTable o t hs) =
        (alGet k t).bind fun bu =>
          if (bu.erase o).length = 0 then none else some (bu.erase o) := by
  intro hs
  induction hs with
  | nil => intro _ t _ k hk; cases hk
  | cons h hs ih =>
    intro hnd t htk k hk
    rw [List.nodup_cons] at hnd
    rw [delTable_cons]
    rcases List.mem_cons.mp hk with rfl | hk2
    · rw [delTable_get_not_mem hnd.1]
      rcases hget : alGet k t with _ | bu
      · dsimp only
        exact hget
      · dsimp only [Option.bind]
        split
        · exact alGet_alErase_self htk
        · exact alGet_alSet_self k (bu.erase o) t
    · have hkh : k ≠ h := fun e => hnd.1 (e ▸ hk2)
      rw [ih hnd.2 (nodup_keys_delTable_step htk) hk2]
      rcases hget : alGet h t with _ | bu
      · rfl
      · dsimp only
        split
        · rw [alGet_alErase_ne hkh t]
        · rw [alGet_alSet_ne _ hkh t]

theorem nodup_keys_addTable {o : Nat} : ∀ {hs : List Key} {t : List (Key × List Nat)},
    (t.map Prod.fst).Nodup → ((addTable o t hs).map Prod.fst).Nodup := by
  intro hs
  induction hs with
  | nil => intro t h; exact h
  | cons h hs ih =>
    intro t htk
    rw [addTable_cons]
    rcases alGet h t with _ | bu
    · exact ih (nodup_keys_alSet _ htk)
    · exact ih (nodup_keys_alSet _ htk)

theorem nodup_keys_delTable {o : Nat} : ∀ {hs : List Key} {t : List (Key × List Nat)},
    (t.map Prod.fst).Nodup → ((delTable o t hs).map Prod.fst).Nodup := by
  intro hs
  induction hs with
  | nil => intro t h; exact h
  | cons h hs ih =>
    intro t htk
    rw [delTable_cons]
    exact ih (nodup_keys_delTable_step htk)

theorem nodup_foldl_sAdd {α : Type} (f : α → Nat) : ∀ (l : List α) (acc : List Nat),
    acc.Nodup → (l.foldl (fun a y => sAdd a (f y)) acc).Nodup := by
  intro l
  induction l with
  | nil => intro acc h; exact h
  | cons y l ih =>
    intro acc h
    rw [List.foldl_cons]
    exact ih _ (nodup_sAdd h)

theorem nodup_getHashFromObject (s : DynamicSpatialHash) (b : Box) :
    (getHashFromObject s b).Nodup := by
  rw [getHashFromObject]
  generalize intRange (minXOf s b) (maxXOf s b) = xs
  generalize intRange (minYOf s b) (maxYOf s b) = ys
  have main : ∀ (xs : List ℤ) (acc : List Nat), acc.Nodup →
      (xs.foldl (fun acc cx => ys.foldl (fun acc2 cy => sAdd acc2 (hash cx cy)) acc) acc).Nodup := by
    intro xs
    induction xs with
    | nil => intro acc h; exact h
    | cons cx xs ih =>
      intro acc h
      rw [List.foldl_cons]
      exact ih _ (nodup_foldl_sAdd (fun cy => hash cx cy) ys acc h)
  exact main _ [] List.nodup_nil

theorem erase_eq_nil_singleton {l : List Nat} {a : Nat} (ha : a ∈ l)
    (h : l.erase a = []) : l = [a] := by
  cases l with
  | nil => cases ha
  | cons b t =>
    simp only [List.erase_cons, beq_iff_eq] at h
    by_cases hb : b = a
    · rw [if_pos hb] at h
      subst h
      rw [hb]
    · rw [if_neg hb] at h
      cases h

theorem mem_sAdd_erase_self {S : List Nat} {A x : Nat} (hAS : A ∈ S) :
    x ∈ sAdd (S.erase A) A ↔ x ∈ S := by
  rw [mem_sAdd]
  by_cases hx : x = A
  · subst hx
    simp [hAS]
  · rw [List.mem_erase_of_ne hx]
    simp [hx]

theorem addTable_delTable_roundtrip (A : Nat) (H : List Key) (hHnd : H.Nodup)
    (t : List (Key × List Nat)) (htk : (t.map Prod.fst).Nodup) (k : Key) (x : Nat) :
    (∃ bu, alGet k (addTable A (delTable A (addTable A t H) H) H) = some bu ∧ x ∈ bu) ↔
      ∃ bu, alGet k (addTable A t H) = some bu ∧ x ∈ bu := by
  by_cases hk : k ∈ H
  · have e1 : alGet k (addTable A t H) = some (sAdd ((alGet k t).getD []) A) :=
      addTable_get hHnd hk
    have htk1 : ((addTable A t H).map Prod.fst).Nodup := nodup_keys_addTable htk
    have e2 : alGet k (delTable A (addTable A t H) H) =
        if ((sAdd ((alGet k t).getD []) A).erase A).length = 0 then none
        else some ((sAdd ((alGet k t).getD []) A).erase A) := by
      rw [delTable_get hHnd htk1 hk, e1]
      rfl
    have e3 : alGet k (addTable A (delTable A (addTable A t H) H) H) =
        some (sAdd ((alGet k (delTable A (addTable A t H) H)).getD []) A) :=
      addTable_get hHnd hk
    have hAS : A ∈ sAdd ((alGet k t).getD []) A := mem_sAdd.mpr (Or.inr rfl)
    rw [e3, e2, e1]
    by_cases hlen : ((sAdd ((alGet k t).getD []) A).erase A).length = 0
    · rw [if_pos hlen]
      have hS : sAdd ((alGet k t).getD []) A = [A] :=
        erase_eq_nil_singleton hAS (List.length_eq_zero.mp hlen)
      have hsa : sAdd ([] : List Nat) A = [A] := by simp [sAdd]
      simp only [Option.getD_none, hsa, hS, Option.some.injEq, exists_eq_left']
    · rw [if_neg hlen]
      simp only [Option.getD_some, Option.some.injEq, exists_eq_left']
      exact mem_sAdd_erase_self hAS
  · have e1 : alGet k (addTable A (delTable A (addTable A t H) H) H) =
        alGet k (addTable A t H) := by
      rw [addTable_get_not_mem hk, delTable_get_not_mem hk]
    rw [e1]

theorem query_ok_iff {s : DynamicSpatialHash} {o : Nat} {hs : List Key}
    (ho : alGet o s.memb = some hs) :
    ∃ L, query s o = Except.ok L ∧
      ∀ x, x ∈ L ↔ ∃ h ∈ hs, bucketHasB s h x = true ∧ x ≠ o := by
  rw [query, ho]
  refine ⟨_, rfl, fun x => ?_⟩
  rw [mem_query_fold]
  simp

/-- C9: for a tracked object A, calling update(A) twice with the same
bounding box succeeds both times, produces the same membership set both
times (A's recorded covering keys, and every other membership entry is
unchanged by the second update), and every tracked object's query result
after the second update has exactly the members it had after the first. -/
theorem update_idempotent_same_membership_and_queries
    (s : DynamicSpatialHash) (A : Nat) (b : Box) (M0 : List Key)
    (hA : alGet A s.memb = some M0) (hTk : (s.table.map Prod.fst).Nodup) :
    ∃ s1 s2, update s A b = Except.ok s1 ∧ update s1 A b = Except.ok s2 ∧
      alGet A s1.memb = some (getHashFromObject s b) ∧
      (∀ o, alGet o s2.memb = alGet o s1.memb) ∧
      (∀ o hs, alGet o s1.memb = some hs →
        ∃ L1 L2, query s1 o = Except.ok L1 ∧ query s2 o = Except.ok L2 ∧
          ∀ x, x ∈ L2 ↔ x ∈ L1) := by
  have hHnd : (getHashFromObject s b).Nodup := nodup_getHashFromObject s b
  have hupd1 : update s A b = Except.ok
      (add { s with table := delTable A s.table M0, memb := alErase A s.memb } A b) := by
    simp only [update, delete, hA]
  have hm1A : alGet A
      (add { s with table := delTable A s.table M0, memb := alErase A s.memb } A b).memb =
      some (getHashFromObject s b) :=
    alGet_alSet_self A _ _
  have hupd2 : update
      (add { s with table := delTable A s.table M0, memb := alErase A s.memb } A b) A b =
      Except.ok (add { add { s with table := delTable A s.table M0, memb := alErase A s.memb } A b with
        table := delTable A
          (add { s with table := delTable A s.table M0, memb := alErase A s.memb } A b).table
          (getHashFromObject s b)
        memb := alErase A
          (add { s with table := delTable A s.table M0, memb := alErase A s.memb } A b).memb } A b) := by
    simp only [update, delete, hm1A]
  refine ⟨_, _, hupd1, hupd2, hm1A, ?_, ?_⟩
  · intro o
    by_cases ho : o = A
    · subst ho
      rw [hm1A]
      exact alGet_alSet_self o _ _
    · show alGet o (alSet A _ (alErase A _)) = _
      rw [alGet_alSet_ne _ ho, alGet_alErase_ne ho]
  · intro o hs ho1
    have hmemb2 : alGet o
        (add { add { s with table := delTable A s.table M0, memb := alErase A s.memb } A b with
          table := delTable A
            (add { s with table := delTable A s.table M0, memb := alErase A s.memb } A b).table
            (getHashFromObject s b)
          memb := alErase A
            (add { s with table := delTable A s.table M0, memb := alErase A s.memb } A b).memb } A b).memb =
        some hs := by
      by_cases ho : o = A
      · subst ho
        rw [ho1] at hm1A
        obtain rfl := Option.some.inj hm1A
        exact alGet_alSet_self o _ _
      · show alGet o (alSet A _ (alErase A _)) = _
        rw [alGet_alSet_ne _ ho, alGet_alErase_ne ho]
        exact ho1
    have hbh : ∀ h x, bucketHasB
        (add { add { s with table := delTable A s.table M0, memb := alErase A s.memb } A b with
          table := delTable A
            (add { s with table := delTable A s.table M0, memb := alErase A s.memb } A b).table
            (getHashFromObject s b)
          memb := alErase A
            (add { s with table := delTable A s.table M0, memb := alErase A s.memb } A b).memb } A b) h x = true ↔
        bucketHasB (add { s with table := delTable A s.table M0, memb := alErase A s.memb } A b) h x = true := by
      intro h x
      rw [bucketHasB_iff, bucketHasB_iff]
      exact addTable_delTable_roundtrip A (getHashFromObject s b) hHnd
        (delTable A s.table M0) (nodup_keys_delTable hTk) h x
    obtain ⟨L1, hL1, hc1⟩ := query_ok_iff ho1
    obtain ⟨L2, hL2, hc2⟩ := query_ok_iff hmemb2
    refine ⟨L1, L2, hL1, hL2, fun x => ?_⟩
    rw [hc1 x, hc2 x]
    constructor
    · rintro ⟨h, hm, hb, hne⟩
      exact ⟨h, hm, (hbh h x).mp hb, hne⟩
    · rintro ⟨h, hm, hb, hne⟩
      exact ⟨h, hm, (hbh h x).mpr hb, hne⟩

/-- C9 witness: instantiated at the concrete tracked state `state5`
(object 0 added at `boxP`), updating twice with the unchanged box. -/
theorem update_idempotent_witness :
    alGet 0 state5.memb = some [hash 0 0] ∧ (state5.table.map Prod.fst).Nodup ∧
    (∃ s1 s2, update state5 0 boxP = Except.ok s1 ∧ update s1 0 boxP = Except.ok s2 ∧
      alGet 0 s1.memb = some (getHashFromObject state5 boxP) ∧
      (∀ o, alGet o s2.memb = alGet o s1.memb) ∧
      (∀ o hs, alGet o s1.memb = some hs →
        ∃ L1 L2, query s1 o = Except.ok L1 ∧ query s2 o = Except.ok L2 ∧
          ∀ x, x ∈ L2 ↔ x ∈ L1)) :=
  ⟨by decide, by decide,
    update_idempotent_same_membership_and_queries state5 0 boxP [hash 0 0]
      (by decide) (by decide)⟩

theorem floor_div_int_floor (q : ℚ) (m : ℤ) (hm : 0 < m) :
    ⌊q / (m : ℚ)⌋ = ⌊((⌊q⌋ : ℚ)) / (m : ℚ)⌋ := by
  have hm0 : (0 : ℚ) < (m : ℚ) := by exact_mod_cast hm
  have h1 : ((⌊((⌊q⌋ : ℚ)) / (m : ℚ)⌋ : ℚ)) ≤ ((⌊q⌋ : ℚ)) / (m : ℚ) := Int.floor_le _
  have h2 : ((⌊q⌋ : ℚ)) / (m : ℚ) < ⌊((⌊q⌋ : ℚ)) / (m : ℚ)⌋ + 1 := Int.lt_floor_add_one _
  have h3 : ((⌊((⌊q⌋ : ℚ)) / (m : ℚ)⌋ : ℚ)) * m ≤ ((⌊q⌋ : ℚ)) := by
    rw [← le_div_iff₀ hm0]
    exact h1
  have h4 : ((⌊((⌊q⌋ : ℚ)) / (m : ℚ)⌋ * m : ℤ) : ℚ) ≤ q := by
    have h4a : (⌊((⌊q⌋ : ℚ)) / (m : ℚ)⌋ * m : ℤ) ≤ ⌊q⌋ := by exact_mod_cast h3
    calc ((⌊((⌊q⌋ : ℚ)) / (m : ℚ)⌋ * m : ℤ) : ℚ) ≤ ((⌊q⌋ : ℚ)) := by exact_mod_cast h4a
      _ ≤ q := Int.floor_le q
  have h5 : ((⌊((⌊q⌋ : ℚ)) / (m : ℚ)⌋ : ℚ)) ≤ q / m := by
    rw [le_div_iff₀ hm0]
    exact_mod_cast h4
  have h6 : ((⌊q⌋ : ℚ)) < (((⌊((⌊q⌋ : ℚ)) / (m : ℚ)⌋ : ℚ)) + 1) * m := by
    rw [← div_lt_iff₀ hm0]
    exact h2
  have h7 : ⌊q⌋ < (⌊((⌊q⌋ : ℚ)) / (m : ℚ)⌋ + 1) * m := by exact_mod_cast h6
  have h8 : q < (((⌊((⌊q⌋ : ℚ)) / (m : ℚ)⌋ + 1) * m : ℤ) : ℚ) := by
    calc q < ((⌊q⌋ : ℚ)) + 1 := Int.lt_floor_add_one q
      _ ≤ (((⌊((⌊q⌋ : ℚ)) / (m : ℚ)⌋ + 1) * m : ℤ) : ℚ) := by exact_mod_cast h7
  have h9 : q / m < ((⌊((⌊q⌋ : ℚ)) / (m : ℚ)⌋ : ℚ)) + 1 := by
    rw [div_lt_iff₀ hm0]
    push_cast at h8
    linarith
  exact Int.floor_eq_iff.mpr ⟨h5, h9⟩

theorem floor_div_sub_le (F G : ℤ) (hFG : F ≤ G) (m : ℤ) (hm : 1 ≤ m) :
    ⌊((G : ℚ)) / (m : ℚ)⌋ - ⌊((F : ℚ)) / (m : ℚ)⌋ ≤ G - F := by
  have hmz : (0 : ℤ) < m := lt_of_lt_of_le one_pos hm
  have hm0 : (0 : ℚ) < (m : ℚ) := by exact_mod_cast hmz
  have hm1 : (1 : ℚ) ≤ (m : ℚ) := by exact_mod_cast hm
  have hkey : (G : ℚ) / m ≤ (F : ℚ) / m + ((G - F : ℤ) : ℚ) := by
    have hd : ((G : ℚ) - F) / m ≤ (G : ℚ) - F := by
      apply div_le_self ?_ hm1
      have : (F : ℚ) ≤ (G : ℚ) := by exact_mod_cast hFG
      linarith
    have hsplit : (G : ℚ) / m = (F : ℚ) / m + ((G : ℚ) - F) / m := by ring
    rw [hsplit]
    push_cast
    linarith
  have h1 : ⌊(G : ℚ) / m⌋ ≤ ⌊(F : ℚ) / m + ((G - F : ℤ) : ℚ)⌋ := Int.floor_le_floor hkey
  rw [Int.floor_add_int] at h1
  omega

theorem set_cellSize_pos (s : DynamicSpatialHash) {q : ℚ} (hq : 0 < q) :
    set_cellSize s (JsValue.num q) = (none, { s with cellSize := 1 / q }) := by
  simp [set_cellSize, not_le.mpr hq]

theorem length_sAdd_le (l : List Nat) (a : Nat) : (sAdd l a).length ≤ l.length + 1 := by
  by_cases h : a ∈ l
  · simp [sAdd, h]
  · simp [sAdd, h]

theorem length_foldl_sAdd_le {α : Type} (f : α → Nat) : ∀ (l : List α) (acc : List Nat),
    (l.foldl (fun a y => sAdd a (f y)) acc).length ≤ acc.length + l.length := by
  intro l
  induction l with
  | nil => intro acc; simp
  | cons y l ih =>
    intro acc
    rw [List.foldl_cons]
    calc (l.foldl (fun a y => sAdd a (f y)) (sAdd acc (f y))).length ≤
        (sAdd acc (f y)).length + l.length := ih _
      _ ≤ acc.length + 1 + l.length := by
          have := length_sAdd_le acc (f y)
          omega
      _ = acc.length + (y :: l).length := by simp; omega

theorem length_intRange (lo hi : ℤ) : (intRange lo hi).length = (hi + 1 - lo).toNat := by
  rw [intRange, List.length_map, List.length_range]

theorem length_getHash_le (s : DynamicSpatialHash) (b : Box) :
    (getHashFromObject s b).length ≤
      (intRange (minXOf s b) (maxXOf s b)).length *
        (intRange (minYOf s b) (maxYOf s b)).length := by
  rw [getHashFromObject]
  generalize intRange (minXOf s b) (maxXOf s b) = xs
  generalize intRange (minYOf s b) (maxYOf s b) = ys
  have main : ∀ (xs : List ℤ) (acc : List Nat),
      (xs.foldl (fun acc cx => ys.foldl (fun acc2 cy => sAdd acc2 (hash cx cy)) acc) acc).length ≤
        acc.length + xs.length * ys.length := by
    intro xs
    induction xs with
    | nil => intro acc; simp
    | cons cx xs ih =>
      intro acc
      rw [List.foldl_cons]
      calc (xs.foldl (fun acc cx => ys.foldl (fun acc2 cy => sAdd acc2 (hash cx cy)) acc)
            (ys.foldl (fun acc2 cy => sAdd acc2 (hash cx cy)) acc)).length ≤
          (ys.foldl (fun acc2 cy => sAdd acc2 (hash cx cy)) acc).length + xs.length * ys.length :=
            ih _
        _ ≤ acc.length + ys.length + xs.length * ys.length := by
            have := length_foldl_sAdd_le (fun cy => hash cx cy) ys acc
            omega
        _ = acc.length + (cx :: xs).length * ys.length := by
            simp [Nat.succ_mul]
            omega
  calc (xs.foldl (fun acc cx => ys.foldl (fun acc2 cy => sAdd acc2 (hash cx cy)) acc) []).length ≤
      ([] : List Nat).length + xs.length * ys.length := main xs []
    _ = xs.length * ys.length := by simp

theorem count_axis_le (lo hi : ℚ) (hlh : lo ≤ hi) (v : ℚ) (hv : 0 < v) (k : ℕ) (hk : 1 ≤ k) :
    ⌊hi * (1 / ((k : ℚ) * v))⌋ - ⌊lo * (1 / ((k : ℚ) * v))⌋ ≤
      ⌊hi * (1 / v)⌋ - ⌊lo * (1 / v)⌋ ∧
    0 ≤ ⌊hi * (1 / ((k : ℚ) * v))⌋ - ⌊lo * (1 / ((k : ℚ) * v))⌋ := by
  have hkz : (0 : ℤ) < (k : ℤ) := by exact_mod_cast Nat.lt_of_lt_of_le Nat.zero_lt_one hk
  have heq : ∀ q : ℚ, q * (1 / ((k : ℚ) * v)) = (q * (1 / v)) / (((k : ℤ) : ℚ)) := by
    intro q
    push_cast
    rw [mul_one_div, mul_one_div, div_div, mul_comm v ((k : ℚ))]
  have e1 : ⌊lo * (1 / ((k : ℚ) * v))⌋ = ⌊((⌊lo * (1 / v)⌋ : ℚ)) / (((k : ℤ) : ℚ))⌋ := by
    rw [heq lo]
    exact floor_div_int_floor _ _ hkz
  have e2 : ⌊hi * (1 / ((k : ℚ) * v))⌋ = ⌊((⌊hi * (1 / v)⌋ : ℚ)) / (((k : ℤ) : ℚ))⌋ := by
    rw [heq hi]
    exact floor_div_int_floor _ _ hkz
  have hFG : ⌊lo * (1 / v)⌋ ≤ ⌊hi * (1 / v)⌋ := by
    apply Int.floor_le_floor
    apply mul_le_mul_of_nonneg_right hlh
    positivity
  constructor
  · rw [e1, e2]
    exact floor_div_sub_le _ _ hFG _ (by exact_mod_cast hk)
  · rw [e1, e2]
    have hmono : ((⌊lo * (1 / v)⌋ : ℚ)) / (((k : ℤ) : ℚ)) ≤ ((⌊hi * (1 / v)⌋ : ℚ)) / (((k : ℤ) : ℚ)) := by
      have hkq : (0 : ℚ) < (((k : ℤ) : ℚ)) := by exact_mod_cast hkz
      exact (div_le_div_iff_of_pos_right hkq).mpr (by exact_mod_cast hFG)
    have := Int.floor_le_floor hmono
    omega

/-- C8 (counterexample): covering-set cardinality is not non-increasing in
the cell size: growing the cell size from 1 to 5/4 grows the covering set
of the box `boxC8a` from 1 bucket key to 2, and even growing it from 1 to
the integer multiple 2 grows the covering set of `boxC8b` from 2 distinct
bucket keys to 4 (the unit-grid covering of `boxC8b` loses two keys to
hash collisions).  Both lists are duplicate-free, so their lengths are the
numbers of distinct buckets occupied. -/
theorem covering_card_can_increase_with_cellSize :
    ((1 : ℚ) < 5 / 4 ∧
      (getHashFromObject (withCell 1) boxC8a).length = 1 ∧
      (getHashFromObject (withCell (5 / 4)) boxC8a).length = 2) ∧
    ((1 : ℚ) < 2 ∧ (2 : ℚ) = ((2 : ℕ) : ℚ) * 1 ∧
      (getHashFromObject (withCell 1) boxC8b).length = 2 ∧
      (getHashFromObject (withCell 2) boxC8b).length = 4 ∧
      (getHashFromObject (withCell 1) boxC8b).Nodup ∧
      (getHashFromObject (withCell 2) boxC8b).Nodup) := by
  refine ⟨⟨by decide, by decide, by decide⟩, by decide, by decide, by decide,
    by decide, by decide, by decide⟩

/-- C8 (amended): for a fixed box with non-negative extents and a fixed
non-negative overflow, multiplying a valid cell size v by a positive integer
k never increases the number of grid cells of the covering rectangle
computed by getHashFromObject, and the number of distinct bucket keys in
the covering set is bounded by that cell count; for arbitrary cell-size
increases, and even for the bucket-key count under integer multiples, the
claimed monotonicity fails (see the counterexample). -/
theorem covering_cells_nonincreasing_integer_multiple
    (s : DynamicSpatialHash) (v : ℚ) (k : ℕ) (b : Box)
    (hv : 0 < v) (hk : 1 ≤ k) (hw : 0 ≤ b.width) (hh : 0 ≤ b.height)
    (hov : 0 ≤ s.overflow) :
    cellCount ((set_cellSize s (JsValue.num ((k : ℚ) * v))).2) b ≤
      cellCount ((set_cellSize s (JsValue.num v)).2) b ∧
    ((getHashFromObject ((set_cellSize s (JsValue.num ((k : ℚ) * v))).2) b).length : ℤ) ≤
      cellCount ((set_cellSize s (JsValue.num ((k : ℚ) * v))).2) b := by
  have hkq : (0 : ℚ) < (k : ℚ) := by exact_mod_cast Nat.lt_of_lt_of_le Nat.zero_lt_one hk
  have hkv : 0 < (k : ℚ) * v := mul_pos hkq hv
  rw [set_cellSize_pos s hkv, set_cellSize_pos s hv]
  obtain ⟨hx1, hx2⟩ := count_axis_le (b.x - b.width * (1 / 2)) (b.x + b.width * (1 / 2))
    (by linarith) v hv k hk
  obtain ⟨hy1, hy2⟩ := count_axis_le (b.y - b.height * (1 / 2)) (b.y + b.height * (1 / 2))
    (by linarith) v hv k hk
  constructor
  · dsimp only [cellCount, minXOf, maxXOf, minYOf, maxYOf]
    exact mul_le_mul (by linarith) (by linarith) (by linarith) (by linarith)
  · have hxn : (0 : ℤ) ≤ maxXOf { s with cellSize := 1 / ((k : ℚ) * v) } b + 1 -
        minXOf { s with cellSize := 1 / ((k : ℚ) * v) } b := by
      dsimp only [minXOf, maxXOf]
      linarith
    have hyn : (0 : ℤ) ≤ maxYOf { s with cellSize := 1 / ((k : ℚ) * v) } b + 1 -
        minYOf { s with cellSize := 1 / ((k : ℚ) * v) } b := by
      dsimp only [minYOf, maxYOf]
      linarith
    calc ((getHashFromObject { s with cellSize := 1 / ((k : ℚ) * v) } b).length : ℤ) ≤
        (((intRange (minXOf { s with cellSize := 1 / ((k : ℚ) * v) } b)
            (maxXOf { s with cellSize := 1 / ((k : ℚ) * v) } b)).length *
          (intRange (minYOf { s with cellSize := 1 / ((k : ℚ) * v) } b)
            (maxYOf { s with cellSize := 1 / ((k : ℚ) * v) } b)).length : ℕ) : ℤ) := by
          exact_mod_cast length_getHash_le { s with cellSize := 1 / ((k : ℚ) * v) } b
      _ = cellCount { s with cellSize := 1 / ((k : ℚ) * v) } b := by
          rw [length_intRange, length_intRange]
          push_cast [Int.toNat_of_nonneg hxn, Int.toNat_of_nonneg hyn]
          rw [cellCount]
          ring

/-- C8 witness: the amended theorem instantiated at a fresh index, cell
size 1, multiplier 2 and the box `boxC8b`. -/
theorem covering_cells_nonincreasing_witness :
    (0 : ℚ) < 1 ∧ 1 ≤ 2 ∧ (0 : ℚ) ≤ boxC8b.width ∧ (0 : ℚ) ≤ boxC8b.height ∧
    (0 : ℤ) ≤ init.overflow ∧
    (cellCount ((set_cellSize init (JsValue.num (((2 : ℕ) : ℚ) * 1))).2) boxC8b ≤
      cellCount ((set_cellSize init (JsValue.num 1)).2) boxC8b ∧
    ((getHashFromObject ((set_cellSize init (JsValue.num (((2 : ℕ) : ℚ) * 1))).2) boxC8b).length : ℤ) ≤
      cellCount ((set_cellSize init (JsValue.num (((2 : ℕ) : ℚ) * 1))).2) boxC8b) :=
  ⟨by norm_num, by norm_num, by decide, by decide, by decide,
    covering_cells_nonincreasing_integer_multiple init 1 2 boxC8b
      (by norm_num) (by norm_num) (by decide) (by decide) (by decide)⟩
